import Mathlib

/-!
# Verification of the marketmaker-frontend derived-metrics logic

A shallow embedding, in Lean 4, of the pure computation kernels of the
`marketmaker-frontend` repository:

* the sentiment response normalizer (`processApiResponse` in
  `src/app/components/TickerDashboard.tsx`),
* the dividends yearly aggregation (`fetchDividendsData` in
  `src/app/components/DividendsChart.tsx`),
* the earnings series preparation, bar colors and tooltip growth
  (`src/app/components/EarningsChart.tsx`),
* the cash-flow aggregation (`fetchCashFlowData` in
  `src/app/components/CashFlowChart.tsx`),
* the ticker symbol search with its filtering/ranking
  (`searchTickers` in `src/app/components/TickerSearchInput.tsx`),
* the chart-component fetch guard (the `useEffect` condition shared by the
  four chart components).

Numbers flowing through the JavaScript code are IEEE doubles; the embedding
uses `ℚ` and states exact arithmetic identities.  String fields that the
code parses with `parseFloat(s) || 0` are modelled as `Option ℚ` (the result
of the parse; `none` plays the role of `NaN`), so `parseFloat(s) || 0`
becomes `Option.getD · 0`.  `parseInt` applied to year strings is modelled
by `jsParseNat` (longest digit prefix).
-/

namespace MarketMaker

/-- JavaScript `String.prototype.includes` on explicit character lists:
`startsWithChars needle hay` is true when `needle` is an initial segment
of `hay`. -/
def startsWithChars : List Char → List Char → Bool
  | [], _ => true
  | _ :: _, [] => false
  | a :: as, b :: bs => a == b && startsWithChars as bs

/-- `containsChars needle hay` is true when `needle` occurs contiguously
somewhere in `hay` (the semantics of JavaScript `hay.includes(needle)`). -/
def containsChars (needle : List Char) : List Char → Bool
  | [] => needle.isEmpty
  | c :: rest => startsWithChars needle (c :: rest) || containsChars needle rest

/-- JavaScript `s.includes(pat)` on strings. -/
def strContains (s pat : String) : Bool :=
  containsChars pat.data s.data

/-- JavaScript `s.toLowerCase()` (character-wise lowering; the labels in
scope are ASCII). -/
def lowerStr (s : String) : String :=
  ⟨s.data.map Char.toLower⟩

/-- Truthiness of an optional JavaScript string value: `undefined`/missing
and the empty string are falsy, any other string is truthy. -/
def jsTruthy : Option String → Bool
  | none => false
  | some s => !s.isEmpty

/-- Longest digit prefix of a character list. -/
def leadDigits (cs : List Char) : List Char :=
  cs.takeWhile Char.isDigit

/-- Numeric value of a digit list, most significant digit first. -/
def digitsVal (cs : List Char) : ℕ :=
  cs.foldl (fun a c => a * 10 + (c.toNat - 48)) 0

/-- JavaScript `parseInt` restricted to the shapes it is applied to in this
repository (year strings cut from ISO dates, no sign, no leading blanks):
the value of the longest digit prefix, `none` for `NaN`. -/
def jsParseNat (s : String) : Option ℕ :=
  let ds := leadDigits s.data
  if ds.isEmpty then none else some (digitsVal ds)

/-- Sort key used by the year comparators `parseInt(a.year) - parseInt(b.year)`.
Only meaningful when the parse succeeds; theorems that depend on the year
ordering carry that hypothesis. -/
def yearVal (y : String) : ℕ :=
  (jsParseNat y).getD 0

/-- `report.fiscalDateEnding.substring(0, 4)` / `payment.date.substring(0, 4)`. -/
def yearOf (date : String) : String :=
  date.take 4

/-! ## Sentiment response normalizer (`TickerDashboard.tsx`, `processApiResponse`) -/

/-- One element of the prediction service's `predictions` array.  `score`
is the numeric score (already a number in the JSON). -/
structure Prediction where
  label : String
  score : ℚ
  deriving DecidableEq, Repr, Inhabited

/-- The three-slot probability record initialised to `{positive: 0, neutral: 0,
negative: 0}`. -/
structure Probabilities where
  positive : ℚ
  neutral : ℚ
  negative : ℚ
  deriving DecidableEq, Repr, Inhabited

/-- The three sentiment classes. -/
inductive Sentiment where
  | positive
  | neutral
  | negative
  deriving DecidableEq, Repr, Inhabited

/-- The slot of `probs` named by a sentiment class. -/
def slotValue (probs : Probabilities) : Sentiment → ℚ
  | .positive => probs.positive
  | .neutral => probs.neutral
  | .negative => probs.negative

/-- The body of the `predictions.forEach` loop: lower-case the label, test the
three substring patterns in order and overwrite the matching slot. -/
def labelStep (probs : Probabilities) (pred : Prediction) : Probabilities :=
  let label := lowerStr pred.label
  if strContains label "positive" || strContains label "pos" then
    { probs with positive := pred.score }
  else if strContains label "negative" || strContains label "neg" then
    { probs with negative := pred.score }
  else if strContains label "neutral" || strContains label "neu" then
    { probs with neutral := pred.score }
  else
    probs

/-- Which slot (if any) a label writes to, with the evaluation order of the
source's `if`/`else if` chain. -/
def classifyLabel (label : String) : Option Sentiment :=
  let l := lowerStr label
  if strContains l "positive" || strContains l "pos" then some .positive
  else if strContains l "negative" || strContains l "neg" then some .negative
  else if strContains l "neutral" || strContains l "neu" then some .neutral
  else none

/-- The whole `forEach` loop over the predictions array. -/
def accumulateProbs (preds : List Prediction) : Probabilities :=
  preds.foldl labelStep ⟨0, 0, 0⟩

/-- `Math.max(probabilities.positive, probabilities.neutral, probabilities.negative)`. -/
def maxProb (probs : Probabilities) : ℚ :=
  max probs.positive (max probs.neutral probs.negative)

/-- The verdict selection: `neutral` by default, `positive` when its slot
equals the maximum, otherwise `negative` when its slot equals the maximum. -/
def chooseSentiment (probs : Probabilities) : Sentiment :=
  if probs.positive = maxProb probs then .positive
  else if probs.negative = maxProb probs then .negative
  else .neutral

/-- The displayed part of the normalizer's result (the free-text summary is
determined by `sentiment` and the ticker and is not modelled). -/
structure SentimentData where
  sentiment : Sentiment
  confidence : ℚ
  probabilities : Probabilities
  deriving DecidableEq, Repr

/-- `processApiResponse` of `TickerDashboard.tsx`, restricted to the fields
it derives from the predictions array. -/
def processApiResponse (preds : List Prediction) : SentimentData :=
  let probs := accumulateProbs preds
  ⟨chooseSentiment probs, maxProb probs, probs⟩

/-! ## Dividends aggregation (`DividendsChart.tsx`, `fetchDividendsData`) -/

/-- One entry of the `Monthly Adjusted Time Series` object: the date key and
the parse of its `7. dividend amount` field (`none` for `NaN`). -/
structure MonthlyEntry where
  date : String
  dividendAmt : Option ℚ
  deriving DecidableEq, Repr, Inhabited

/-- A qualifying dividend payment (the source stores the amount back as a
string and re-parses it; the round trip is the identity, so the amount is
kept numeric here). -/
structure DividendPayment where
  date : String
  dividend : ℚ
  deriving DecidableEq, Repr, Inhabited

/-- The first loop of `fetchDividendsData`: keep entries whose dividend
amount is truthy and `> 0`. -/
def collectPayments (ms : List MonthlyEntry) : List DividendPayment :=
  ms.filterMap fun m =>
    match m.dividendAmt with
    | some d => if 0 < d then some ⟨m.date, d⟩ else none
    | none => none

/-- A yearly dividend aggregate. -/
structure YearlyDividend where
  year : String
  totalDividend : ℚ
  quarterlyDividends : List DividendPayment
  deriving DecidableEq, Repr, Inhabited

/-- The distinct year keys of the `yearlyDividends` dictionary, in first
occurrence order (the subsequent explicit sort makes the dictionary's own
key order irrelevant). -/
def divYears (ps : List DividendPayment) : List String :=
  ps.foldl (fun acc p => if yearOf p.date ∈ acc then acc else acc ++ [yearOf p.date]) []

/-- The grouping loop of `fetchDividendsData`: one aggregate per distinct
year key, holding the payments with that 4-character date prefix and the sum
of their amounts. -/
def groupByYear (ps : List DividendPayment) : List YearlyDividend :=
  (divYears ps).map fun y =>
    let grp := ps.filter fun p => yearOf p.date == y
    ⟨y, (grp.map DividendPayment.dividend).sum, grp⟩

/-- `Object.values(yearlyDividends).sort((a, b) => parseInt(b.year) -
parseInt(a.year)).slice(0, 10).reverse()`. -/
def fetchDividendsAgg (ms : List MonthlyEntry) : List YearlyDividend :=
  (((groupByYear (collectPayments ms)).mergeSort
      (fun a b => decide (yearVal b.year ≤ yearVal a.year))).take 10).reverse

/-! ## Earnings series (`EarningsChart.tsx`) -/

/-- One element of `annualEarnings`; `reportedEPS` is the parse of the
string field (`none` for `NaN`). -/
structure EarningsRecord where
  fiscalDateEnding : String
  reportedEPS : Option ℚ
  deriving DecidableEq, Repr, Inhabited

/-- `parseFloat(data.reportedEPS) || 0`. -/
def epsOf (r : EarningsRecord) : ℚ :=
  r.reportedEPS.getD 0

/-- `annualEarnings.slice(0, 10).reverse()`. -/
def recentEarnings (l : List EarningsRecord) : List EarningsRecord :=
  (l.take 10).reverse

/-- The bar color for index `i` of the earnings chart. -/
def earningsColorAt (l : List EarningsRecord) (i : ℕ) : String :=
  let reported := epsOf (l.getD i default)
  if reported < 0 then "#ef4444"
  else if 0 < i then
    (if epsOf (l.getD (i - 1) default) < reported then "#22c55e" else "#f59e0b")
  else "#3b82f6"

/-- The color array built by `earningsData.map((data, index) => ...)`. -/
def earningsColors (l : List EarningsRecord) : List String :=
  (List.range l.length).map (earningsColorAt l)

/-- The growth figure of the earnings tooltip at category index `i`:
`none` when the tooltip omits the growth line (first period), `some g`
when it renders the numeric percentage `g`. -/
def earningsGrowthInfo (l : List EarningsRecord) (i : ℕ) : Option ℚ :=
  if 0 < i then
    let currentEPS := epsOf (l.getD i default)
    let previousEPS := epsOf (l.getD (i - 1) default)
    some (if previousEPS ≠ 0 then (currentEPS - previousEPS) / |previousEPS| * 100 else 0)
  else none

/-! ## Dividends chart presentation (`DividendsChart.tsx`, `getChartOption`) -/

/-- The bar color for index `i` of the dividends chart, over the
`dividendAmounts` array. -/
def dividendColorAt (amts : List ℚ) (i : ℕ) : String :=
  if i = 0 then "#3b82f6"
  else
    let amount := amts.getD i 0
    let previous := amts.getD (i - 1) 0
    if previous < amount then "#22c55e"
    else if amount < previous then "#f59e0b"
    else "#ef4444"

/-- The color array built by `dividendAmounts.map((amount, index) => ...)`. -/
def dividendColors (amts : List ℚ) : List String :=
  (List.range amts.length).map (dividendColorAt amts)

/-- The growth figure of the dividends tooltip at category index `i`:
`none` when `previousAmount` is `null` (index 0), otherwise the rendered
percentage.  The division is exact division in `ℚ`; the theorems use this
definition only where the previous total is nonzero, which is the only
case reachable from the aggregator's output. -/
def dividendsGrowthInfo (ds : List YearlyDividend) (i : ℕ) : Option ℚ :=
  if 0 < i then
    let current := (ds.getD i default).totalDividend
    let previous := (ds.getD (i - 1) default).totalDividend
    some ((current - previous) / previous * 100)
  else none

/-! ## Cash-flow aggregation (`CashFlowChart.tsx`, `fetchCashFlowData`) -/

/-- One element of `annualReports` with its numeric fields parsed
(`none` for `NaN`). -/
structure CashFlowReport where
  fiscalDateEnding : String
  operatingCashflow : Option ℚ
  capitalExpenditures : Option ℚ
  netIncome : Option ℚ
  dividendPayout : Option ℚ
  deriving DecidableEq, Repr, Inhabited

/-- The processed record displayed by the cash-flow chart, in $ billions. -/
structure CashFlowData where
  year : String
  operatingCashflow : ℚ
  capitalExpenditures : ℚ
  freeCashFlow : ℚ
  netIncome : ℚ
  dividendPayout : ℚ
  deriving DecidableEq, Repr, Inhabited

/-- The body of the `annualReports.map` callback in `fetchCashFlowData`. -/
def mkCashFlowData (r : CashFlowReport) : CashFlowData :=
  let operatingCashflow := r.operatingCashflow.getD 0
  let capitalExpenditures := |r.capitalExpenditures.getD 0|
  let freeCashFlow := operatingCashflow - capitalExpenditures
  let netIncome := r.netIncome.getD 0
  let dividendPayout := r.dividendPayout.getD 0
  ⟨yearOf r.fiscalDateEnding,
    operatingCashflow / 1000000000,
    capitalExpenditures / 1000000000,
    freeCashFlow / 1000000000,
    netIncome / 1000000000,
    dividendPayout / 1000000000⟩

/-- `annualReports.slice(0, 10).map(...).sort((a, b) => parseInt(a.year) -
parseInt(b.year))`. -/
def processCashFlow (l : List CashFlowReport) : List CashFlowData :=
  ((l.take 10).map mkCashFlowData).mergeSort
    (fun a b => decide (yearVal a.year ≤ yearVal b.year))

/-! ## Income-statement aggregation (`IncomeStatementChart.tsx`, `fetchIncomeStatementData`) -/

/-- One element of the income statement's `annualReports` with its numeric
fields parsed (`none` for `NaN`). -/
structure IncomeReport where
  fiscalDateEnding : String
  totalRevenue : Option ℚ
  netIncome : Option ℚ
  operatingIncome : Option ℚ
  grossProfit : Option ℚ
  operatingExpenses : Option ℚ
  deriving DecidableEq, Repr, Inhabited

/-- The processed record displayed by the income-statement chart, in
$ billions. -/
structure IncomeData where
  year : String
  totalRevenue : ℚ
  netIncome : ℚ
  operatingIncome : ℚ
  grossProfit : ℚ
  operatingExpenses : ℚ
  deriving DecidableEq, Repr, Inhabited

/-- The body of the `annualReports.map` callback in
`fetchIncomeStatementData`. -/
def mkIncomeData (r : IncomeReport) : IncomeData :=
  let totalRevenue := r.totalRevenue.getD 0
  let netIncome := r.netIncome.getD 0
  let operatingIncome := r.operatingIncome.getD 0
  let grossProfit := r.grossProfit.getD 0
  let operatingExpenses := r.operatingExpenses.getD 0
  ⟨yearOf r.fiscalDateEnding,
    totalRevenue / 1000000000,
    netIncome / 1000000000,
    operatingIncome / 1000000000,
    grossProfit / 1000000000,
    operatingExpenses / 1000000000⟩

/-- `annualReports.slice(0, 10).map(...).sort((a, b) => parseInt(a.year) -
parseInt(b.year))` of the income-statement chart. -/
def processIncome (l : List IncomeReport) : List IncomeData :=
  ((l.take 10).map mkIncomeData).mergeSort
    (fun a b => decide (yearVal a.year ≤ yearVal b.year))

/-! ## Ticker symbol search (`TickerSearchInput.tsx`, `searchTickers`) -/

/-- One element of `bestMatches`; `matchScore` is the parse of the
`9. matchScore` string. -/
structure SearchResult where
  symbol : String
  name : String
  typ : String
  region : String
  currency : String
  matchScore : ℚ
  deriving DecidableEq, Repr, Inhabited

/-- The symbol-search response body: the optional `Error Message` and `Note`
fields and the `bestMatches` array (missing array modelled as `[]`, matching
`response.data.bestMatches || []`). -/
structure SearchResponse where
  errorMessage : Option String
  note : Option String
  bestMatches : List SearchResult
  deriving DecidableEq, Repr, Inhabited

/-- The live-result pipeline of `searchTickers`: filter to
`type === 'Equity' && region === 'United States'`, sort by descending parsed
match score, `slice(0, 8)`. -/
def filterLiveResults (results : List SearchResult) : List SearchResult :=
  ((results.filter fun r => r.typ == "Equity" && r.region == "United States").mergeSort
      (fun a b => decide (b.matchScore ≤ a.matchScore))).take 8

/-- `searchTickers`, as a function of the configured API key, the query and
the provider response it would receive; the value is the pair
(`searchResults`, `showSuggestions`) that the function stores. -/
def searchTickers (apiKey : Option String) (query : String) (resp : SearchResponse) :
    List SearchResult × Bool :=
  if query.length < 2 then ([], false)
  else if !jsTruthy apiKey then ([], false)
  else if jsTruthy resp.errorMessage then ([], false)
  else if jsTruthy resp.note then ([], false)
  else
    let filteredResults := filterLiveResults resp.bestMatches
    (filteredResults, decide (0 < filteredResults.length))

/-! ## Chart fetch guard (the `useEffect` shared by the chart components) -/

/-- The local state of one chart component. -/
structure ChartState (α : Type) where
  chartData : List α
  loading : Bool
  error : String

/-- The `useEffect` condition
`shouldFetch && ticker && ticker.length >= 3 && !ticker.includes(' ')`. -/
def shouldTrigger (shouldFetch : Bool) (ticker : String) : Bool :=
  shouldFetch && !ticker.isEmpty && decide (3 ≤ ticker.length) && !strContains ticker " "

/-- One run of the effect: when the condition holds the fetch runs (an
arbitrary state transformer, since it involves the network), and the
second component records that a request was initiated; otherwise the
state is untouched and no request is made. -/
def chartEffect {α : Type} (shouldFetch : Bool) (ticker : String)
    (doFetch : ChartState α → ChartState α) (s : ChartState α) :
    ChartState α × Bool :=
  if shouldTrigger shouldFetch ticker then (doFetch s, true) else (s, false)

/-! ## Helper lemmas: substring matching -/

theorem startsWithChars_append_left (n1 n2 hay : List Char)
    (h : startsWithChars (n1 ++ n2) hay = true) : startsWithChars n1 hay = true := by
  induction n1 generalizing hay with
  | nil => rfl
  | cons a as ih =>
    cases hay with
    | nil => simp [startsWithChars] at h
    | cons b bs =>
      simp only [List.cons_append, startsWithChars, Bool.and_eq_true] at h ⊢
      exact ⟨h.1, ih bs h.2⟩

theorem containsChars_of_append (n1 n2 hay : List Char)
    (h : containsChars (n1 ++ n2) hay = true) : containsChars n1 hay = true := by
  induction hay with
  | nil =>
    simp only [containsChars, List.isEmpty_eq_true, List.append_eq_nil] at h ⊢
    exact h.1
  | cons c rest ih =>
    simp only [containsChars, Bool.or_eq_true] at h ⊢
    rcases h with h | h
    · exact Or.inl (startsWithChars_append_left n1 n2 _ h)
    · exact Or.inr (ih h)

theorem strContains_pos_of_positive (l : String)
    (h : strContains l "positive" = true) : strContains l "pos" = true := by
  have : ("positive" : String).data = ("pos" : String).data ++ "itive".data := by decide
  unfold strContains at h ⊢
  rw [this] at h
  exact containsChars_of_append _ _ _ h

theorem strContains_neg_of_negative (l : String)
    (h : strContains l "negative" = true) : strContains l "neg" = true := by
  have : ("negative" : String).data = ("neg" : String).data ++ "ative".data := by decide
  unfold strContains at h ⊢
  rw [this] at h
  exact containsChars_of_append _ _ _ h

theorem strContains_neu_of_neutral (l : String)
    (h : strContains l "neutral" = true) : strContains l "neu" = true := by
  have : ("neutral" : String).data = ("neu" : String).data ++ "tral".data := by decide
  unfold strContains at h ⊢
  rw [this] at h
  exact containsChars_of_append _ _ _ h

/-! ## Helper lemmas: the sentiment normalizer -/

theorem classifyLabel_norm (label : String) :
    classifyLabel label =
      (if strContains (lowerStr label) "pos" = true then some .positive
       else if strContains (lowerStr label) "neg" = true then some .negative
       else if strContains (lowerStr label) "neu" = true then some .neutral
       else none) := by
  unfold classifyLabel
  by_cases c1 : strContains (lowerStr label) "pos" = true
  · simp [c1]
  · by_cases c1' : strContains (lowerStr label) "positive" = true
    · exact absurd (strContains_pos_of_positive _ c1') c1
    · by_cases c2 : strContains (lowerStr label) "neg" = true
      · simp [c1, c1', c2]
      · by_cases c2' : strContains (lowerStr label) "negative" = true
        · exact absurd (strContains_neg_of_negative _ c2') c2
        · by_cases c3 : strContains (lowerStr label) "neu" = true
          · simp [c1, c1', c2, c2', c3]
          · by_cases c3' : strContains (lowerStr label) "neutral" = true
            · exact absurd (strContains_neu_of_neutral _ c3') c3
            · simp [c1, c1', c2, c2', c3, c3']

theorem labelStep_classify (probs : Probabilities) (pred : Prediction) :
    labelStep probs pred =
      match classifyLabel pred.label with
      | some .positive => { probs with positive := pred.score }
      | some .negative => { probs with negative := pred.score }
      | some .neutral => { probs with neutral := pred.score }
      | none => probs := by
  unfold labelStep classifyLabel
  by_cases h1 : (strContains (lowerStr pred.label) "positive" || strContains (lowerStr pred.label) "pos") = true
  · simp [h1]
  · by_cases h2 : (strContains (lowerStr pred.label) "negative" || strContains (lowerStr pred.label) "neg") = true
    · simp [h1, h2]
    · by_cases h3 : (strContains (lowerStr pred.label) "neutral" || strContains (lowerStr pred.label) "neu") = true
      · simp [h1, h2, h3]
      · simp [h1, h2, h3]

theorem labelStep_of_classify_none (probs : Probabilities) (pred : Prediction)
    (h : classifyLabel pred.label = none) : labelStep probs pred = probs := by
  rw [labelStep_classify, h]

theorem slotValue_labelStep_same (probs : Probabilities) (pred : Prediction) (s : Sentiment)
    (h : classifyLabel pred.label = some s) :
    slotValue (labelStep probs pred) s = pred.score := by
  rw [labelStep_classify, h]
  cases s <;> rfl

theorem slotValue_labelStep_other (probs : Probabilities) (pred : Prediction) (s s' : Sentiment)
    (h : classifyLabel pred.label = some s) (hne : s' ≠ s) :
    slotValue (labelStep probs pred) s' = slotValue probs s' := by
  rw [labelStep_classify, h]
  cases s <;> cases s' <;> first | rfl | exact absurd rfl hne

theorem slotValue_foldl_untouched (l : List Prediction) (probs : Probabilities) (s : Sentiment)
    (h : ∀ q ∈ l, classifyLabel q.label ≠ some s) :
    slotValue (l.foldl labelStep probs) s = slotValue probs s := by
  induction l generalizing probs with
  | nil => rfl
  | cons q rest ih =>
    rw [List.foldl_cons]
    rw [ih _ fun r hr => h r (List.mem_cons_of_mem _ hr)]
    rcases hq : classifyLabel q.label with _ | s'
    · rw [labelStep_of_classify_none _ _ hq]
    · exact slotValue_labelStep_other _ _ _ _ hq
        (fun he => h q (List.mem_cons_self _ _) (he ▸ hq))

theorem slotValue_foldl_congr (l : List Prediction) (P Q : Probabilities) (s' : Sentiment)
    (h : slotValue P s' = slotValue Q s') :
    slotValue (l.foldl labelStep P) s' = slotValue (l.foldl labelStep Q) s' := by
  induction l generalizing P Q with
  | nil => exact h
  | cons q rest ih =>
    rw [List.foldl_cons, List.foldl_cons]
    refine ih _ _ ?_
    rcases hq : classifyLabel q.label with _ | t
    · rw [labelStep_of_classify_none _ _ hq, labelStep_of_classify_none _ _ hq]
      exact h
    · by_cases hst : s' = t
      · subst hst
        rw [slotValue_labelStep_same _ _ _ hq, slotValue_labelStep_same _ _ _ hq]
      · rw [slotValue_labelStep_other _ _ _ _ hq hst,
          slotValue_labelStep_other _ _ _ _ hq hst]
        exact h

theorem slotValue_chooseSentiment (probs : Probabilities) :
    slotValue probs (chooseSentiment probs) = maxProb probs := by
  unfold chooseSentiment
  by_cases h1 : probs.positive = maxProb probs
  · rw [if_pos h1]
    exact h1
  · rw [if_neg h1]
    by_cases h2 : probs.negative = maxProb probs
    · rw [if_pos h2]
      exact h2
    · rw [if_neg h2]
      show probs.neutral = maxProb probs
      rcases max_choice probs.positive (max probs.neutral probs.negative) with h | h
      · exact absurd h.symm h1
      · rcases max_choice probs.neutral probs.negative with h' | h'
        · exact (h.trans h').symm
        · exact absurd (h.trans h').symm h2

/--
C1: the sentiment normalizer reports as confidence the numerically largest
of the three slot values, the chosen verdict is the slot holding that
maximum (positive checked first, negative second, neutral as the default,
so a positive/negative tie resolves to positive and neutral wins only when
neither of the other slots attains the maximum), and on the predictions
`[("LABEL_0 positive", 0.7), ("LABEL_1 negative", 0.2), ("LABEL_2 neutral", 0.1)]`
it returns sentiment `positive`, confidence `0.7` and probabilities
`{positive := 0.7, neutral := 0.1, negative := 0.2}`.
-/
theorem sentiment_argmax_spec : ∀ preds : List Prediction,
    (processApiResponse preds).confidence = maxProb (accumulateProbs preds)
    ∧ slotValue (accumulateProbs preds) (processApiResponse preds).sentiment
        = maxProb (accumulateProbs preds)
    ∧ (processApiResponse preds).sentiment =
        (if (accumulateProbs preds).positive = maxProb (accumulateProbs preds) then .positive
         else if (accumulateProbs preds).negative = maxProb (accumulateProbs preds) then .negative
         else .neutral)
    ∧ processApiResponse
        [⟨"LABEL_0 positive", 7/10⟩, ⟨"LABEL_1 negative", 2/10⟩, ⟨"LABEL_2 neutral", 1/10⟩]
        = ⟨.positive, 7/10, ⟨7/10, 1/10, 2/10⟩⟩ := by
  intro preds
  refine ⟨rfl, slotValue_chooseSentiment _, rfl, ?_⟩
  have hacc : accumulateProbs
      [⟨"LABEL_0 positive", 7/10⟩, ⟨"LABEL_1 negative", 2/10⟩, ⟨"LABEL_2 neutral", 1/10⟩]
      = ⟨7/10, 1/10, 2/10⟩ := rfl
  have hmax : maxProb ⟨7/10, 1/10, 2/10⟩ = 7/10 := by
    unfold maxProb
    rw [show max ((1:ℚ)/10) (2/10) = 2/10 from max_eq_right (by norm_num),
      show max ((7:ℚ)/10) (2/10) = 7/10 from max_eq_left (by norm_num)]
  have hchoose : chooseSentiment ⟨7/10, 1/10, 2/10⟩ = .positive := by
    unfold chooseSentiment
    rw [if_pos (show ((⟨7/10, 1/10, 2/10⟩ : Probabilities)).positive
      = maxProb ⟨7/10, 1/10, 2/10⟩ from hmax.symm)]
  show (⟨chooseSentiment (accumulateProbs _), maxProb (accumulateProbs _),
      accumulateProbs _⟩ : SentimentData) = _
  rw [hacc, hchoose, hmax]

/--
C7: slot assembly of the normalizer is case-insensitive substring matching
with the source's evaluation order (`pos` patterns first, then `neg`, then
`neu`); a prediction whose label matches no pattern leaves the accumulated
probabilities unchanged wherever it occurs; and when a prediction is the
last one writing to a slot, the slot's final value is exactly its score
(last write wins, no accumulation), the other slots being unaffected by
that prediction.
-/
theorem sentiment_label_matching : ∀ (l1 l2 : List Prediction) (p : Prediction),
    (classifyLabel p.label = none →
      accumulateProbs (l1 ++ p :: l2) = accumulateProbs (l1 ++ l2))
    ∧ (∀ s : Sentiment, classifyLabel p.label = some s →
        (∀ q ∈ l2, classifyLabel q.label ≠ some s) →
        slotValue (accumulateProbs (l1 ++ p :: l2)) s = p.score)
    ∧ (∀ s s' : Sentiment, classifyLabel p.label = some s → s' ≠ s →
        slotValue (accumulateProbs (l1 ++ p :: l2)) s'
          = slotValue (accumulateProbs (l1 ++ l2)) s')
    ∧ (classifyLabel p.label = some .positive ↔ strContains (lowerStr p.label) "pos" = true)
    ∧ (classifyLabel p.label = some .negative ↔
        (strContains (lowerStr p.label) "neg" = true ∧ ¬ strContains (lowerStr p.label) "pos" = true))
    ∧ (classifyLabel p.label = some .neutral ↔
        (strContains (lowerStr p.label) "neu" = true ∧ ¬ strContains (lowerStr p.label) "pos" = true
          ∧ ¬ strContains (lowerStr p.label) "neg" = true)) := by
  intro l1 l2 p
  refine ⟨?_, ?_, ?_, ?_, ?_, ?_⟩
  · intro h
    unfold accumulateProbs
    rw [List.foldl_append, List.foldl_append, List.foldl_cons,
      labelStep_of_classify_none _ _ h]
  · intro s hs hrest
    unfold accumulateProbs
    rw [List.foldl_append, List.foldl_cons,
      slotValue_foldl_untouched _ _ _ hrest,
      slotValue_labelStep_same _ _ _ hs]
  · intro s s' hs hne
    unfold accumulateProbs
    rw [List.foldl_append, List.foldl_append, List.foldl_cons]
    exact slotValue_foldl_congr _ _ _ _ (slotValue_labelStep_other _ _ _ _ hs hne)
  · rw [classifyLabel_norm]
    by_cases c1 : strContains (lowerStr p.label) "pos" = true
    · simp [c1]
    · by_cases c2 : strContains (lowerStr p.label) "neg" = true
      · simp [c1, c2]
      · by_cases c3 : strContains (lowerStr p.label) "neu" = true
        · simp [c1, c2, c3]
        · simp [c1, c2, c3]
  · rw [classifyLabel_norm]
    by_cases c1 : strContains (lowerStr p.label) "pos" = true
    · simp [c1]
    · by_cases c2 : strContains (lowerStr p.label) "neg" = true
      · simp [c1, c2]
      · by_cases c3 : strContains (lowerStr p.label) "neu" = true
        · simp [c1, c2, c3]
        · simp [c1, c2, c3]
  · rw [classifyLabel_norm]
    by_cases c1 : strContains (lowerStr p.label) "pos" = true
    · simp [c1]
    · by_cases c2 : strContains (lowerStr p.label) "neg" = true
      · simp [c1, c2]
      · by_cases c3 : strContains (lowerStr p.label) "neu" = true
        · simp [c1, c2, c3]
        · simp [c1, c2, c3]

/-- Witness for C7 at a concrete instance: the label `"LABEL_1 OTHER"`
matches no pattern and is dropped, and `"Very Positive"` writes the
positive slot last, so the slot equals its score. -/
theorem sentiment_label_matching_witness :
    accumulateProbs [⟨"Very Positive", 9/10⟩, ⟨"LABEL_1 OTHER", 1/2⟩]
        = accumulateProbs [⟨"Very Positive", 9/10⟩]
    ∧ slotValue (accumulateProbs [⟨"neutralish", 1/3⟩, ⟨"Very Positive", 9/10⟩]) .positive
        = 9/10 := by
  constructor
  · exact (sentiment_label_matching [⟨"Very Positive", 9/10⟩] [] ⟨"LABEL_1 OTHER", 1/2⟩).1
      (by decide)
  · exact (sentiment_label_matching [⟨"neutralish", 1/3⟩] [] ⟨"Very Positive", 9/10⟩).2.1
      .positive (by decide) (by simp)

/-! ## Helper lemmas: the dividends aggregation -/

theorem collectPayments_mem (ms : List MonthlyEntry) (p : DividendPayment)
    (hp : p ∈ collectPayments ms) :
    0 < p.dividend ∧ ∃ m ∈ ms, m.dividendAmt = some p.dividend ∧ m.date = p.date := by
  unfold collectPayments at hp
  rcases List.mem_filterMap.mp hp with ⟨m, hm, hf⟩
  split at hf
  next d hd =>
    split at hf
    next h0 =>
      have hpd : (⟨m.date, d⟩ : DividendPayment) = p := Option.some.inj hf
      subst hpd
      exact ⟨h0, m, hm, hd, rfl⟩
    next h0 => exact absurd hf (by simp)
  next hd => exact absurd hf (by simp)

theorem mem_divYears (ps : List DividendPayment) (y : String) (hy : y ∈ divYears ps) :
    ∃ p ∈ ps, yearOf p.date = y := by
  have key : ∀ (l : List DividendPayment) (acc : List String),
      y ∈ l.foldl (fun acc p => if yearOf p.date ∈ acc then acc else acc ++ [yearOf p.date]) acc →
      y ∈ acc ∨ ∃ p ∈ l, yearOf p.date = y := by
    intro l
    induction l with
    | nil => exact fun acc h => Or.inl h
    | cons q rest ih =>
      intro acc h
      rw [List.foldl_cons] at h
      rcases ih _ h with h' | ⟨p, hp, hyp⟩
      · by_cases hq : yearOf q.date ∈ acc
        · rw [if_pos hq] at h'
          exact Or.inl h'
        · rw [if_neg hq] at h'
          rcases List.mem_append.mp h' with h'' | h''
          · exact Or.inl h''
          · exact Or.inr ⟨q, List.mem_cons_self _ _, (List.mem_singleton.mp h'').symm⟩
      · exact Or.inr ⟨p, List.mem_cons_of_mem _ hp, hyp⟩
  rcases key ps [] hy with h | h
  · exact absurd h (List.not_mem_nil y)
  · exact h

theorem divYears_nodup (ps : List DividendPayment) : (divYears ps).Nodup := by
  have key : ∀ (l : List DividendPayment) (acc : List String), acc.Nodup →
      (l.foldl (fun acc p => if yearOf p.date ∈ acc then acc else acc ++ [yearOf p.date])
        acc).Nodup := by
    intro l
    induction l with
    | nil => exact fun acc h => h
    | cons q rest ih =>
      intro acc h
      rw [List.foldl_cons]
      refine ih _ ?_
      by_cases hq : yearOf q.date ∈ acc
      · rw [if_pos hq]
        exact h
      · rw [if_neg hq]
        exact h.append (List.nodup_singleton _)
          fun a ha hax => hq ((List.mem_singleton.mp hax) ▸ ha)
  exact key ps [] List.nodup_nil

theorem groupByYear_year_map (ps : List DividendPayment) :
    (groupByYear ps).map YearlyDividend.year = divYears ps := by
  unfold groupByYear
  rw [List.map_map]
  exact List.map_id'' (fun y => rfl) _

theorem mem_groupByYear (ps : List DividendPayment) (g : YearlyDividend)
    (hg : g ∈ groupByYear ps) :
    g.year ∈ divYears ps
    ∧ g.quarterlyDividends = ps.filter (fun p => yearOf p.date == g.year)
    ∧ g.totalDividend
        = ((ps.filter (fun p => yearOf p.date == g.year)).map DividendPayment.dividend).sum := by
  unfold groupByYear at hg
  rcases List.mem_map.mp hg with ⟨y, hy, hgy⟩
  subst hgy
  exact ⟨hy, rfl, rfl⟩

theorem mem_fetchDividendsAgg (ms : List MonthlyEntry) (g : YearlyDividend)
    (hg : g ∈ fetchDividendsAgg ms) : g ∈ groupByYear (collectPayments ms) := by
  unfold fetchDividendsAgg at hg
  rw [List.mem_reverse] at hg
  exact List.mem_mergeSort.mp (List.mem_of_mem_take hg)

/--
C2: every yearly aggregate emitted by the dividends aggregation carries,
as `totalDividend`, exactly the sum of the dividend amounts of the monthly
payments grouped under its 4-character year prefix; its payment list is
exactly that group; only monthly records with a parseable, strictly
positive dividend amount contribute; a year appears in the output only if
it has at least one qualifying payment, and its total is then strictly
positive (never an emitted zero).
-/
theorem dividend_totals : ∀ (ms : List MonthlyEntry) (g : YearlyDividend),
    g ∈ fetchDividendsAgg ms →
    g.totalDividend
        = (((collectPayments ms).filter fun p => yearOf p.date == g.year).map
            DividendPayment.dividend).sum
    ∧ g.quarterlyDividends = ((collectPayments ms).filter fun p => yearOf p.date == g.year)
    ∧ (∃ p ∈ collectPayments ms, yearOf p.date = g.year)
    ∧ 0 < g.totalDividend
    ∧ ∀ p ∈ g.quarterlyDividends,
        0 < p.dividend ∧ ∃ m ∈ ms, m.dividendAmt = some p.dividend ∧ m.date = p.date := by
  intro ms g hg
  obtain ⟨hyear, hq, ht⟩ := mem_groupByYear _ _ (mem_fetchDividendsAgg _ _ hg)
  obtain ⟨p0, hp0, hp0y⟩ := mem_divYears _ _ hyear
  have hp0f : p0 ∈ (collectPayments ms).filter fun p => yearOf p.date == g.year :=
    List.mem_filter.mpr ⟨hp0, beq_iff_eq.mpr hp0y⟩
  refine ⟨ht, hq, ⟨p0, hp0, hp0y⟩, ?_, ?_⟩
  · rw [ht]
    refine List.sum_pos _ (fun x hx => ?_) (fun hnil => ?_)
    · rcases List.mem_map.mp hx with ⟨p, hp, hpx⟩
      exact hpx ▸ (collectPayments_mem _ _ (List.mem_of_mem_filter hp)).1
    · rw [List.map_eq_nil_iff] at hnil
      rw [hnil] at hp0f
      exact absurd hp0f (List.not_mem_nil _)
  · intro p hp
    rw [hq] at hp
    exact (collectPayments_mem _ _ (List.mem_of_mem_filter hp)).imp id fun h => h

/-- Witness for C2: the single monthly record `("2020-01-31", 1.0)` yields
the single aggregate for year `"2020"` with total `1`, and the theorem's
conclusions hold there. -/
theorem dividend_totals_witness :
    (⟨"2020", 1, [⟨"2020-01-31", 1⟩]⟩ : YearlyDividend)
        ∈ fetchDividendsAgg [⟨"2020-01-31", some 1⟩]
    ∧ (0:ℚ) < (⟨"2020", 1, [⟨"2020-01-31", 1⟩]⟩ : YearlyDividend).totalDividend := by
  have hcp : collectPayments [⟨"2020-01-31", some 1⟩] = [⟨"2020-01-31", 1⟩] := by
    simp only [collectPayments, List.filterMap_cons, List.filterMap_nil]
    norm_num
  have hdy : divYears [⟨"2020-01-31", (1:ℚ)⟩] = ["2020"] := by
    simp only [divYears, List.foldl_cons, List.foldl_nil, yearOf,
      show ("2020-01-31".take 4) = "2020" from rfl]
    simp
  have hgb : groupByYear (collectPayments [⟨"2020-01-31", some 1⟩])
      = [⟨"2020", 1, [⟨"2020-01-31", 1⟩]⟩] := by
    rw [hcp, groupByYear, hdy]
    simp only [List.map_cons, List.map_nil, List.filter_cons, List.filter_nil, yearOf,
      show ("2020-01-31".take 4) = "2020" from rfl]
    norm_num
  have hagg : fetchDividendsAgg [⟨"2020-01-31", some 1⟩]
      = [⟨"2020", 1, [⟨"2020-01-31", 1⟩]⟩] := by
    rw [fetchDividendsAgg, hgb]
    rw [List.mergeSort_of_sorted (by simp)]
    simp
  have hmem : (⟨"2020", 1, [⟨"2020-01-31", 1⟩]⟩ : YearlyDividend)
      ∈ fetchDividendsAgg [⟨"2020-01-31", some 1⟩] := by
    rw [hagg]
    exact List.mem_singleton.mpr rfl
  exact ⟨hmem, (dividend_totals _ _ hmem).2.2.2.1⟩

/-! ## Helper lemmas: sorted series -/

theorem pairwise_take_drop {α : Type} {R : α → α → Prop} {l : List α} (h : l.Pairwise R)
    (n : ℕ) : ∀ a ∈ l.take n, ∀ b ∈ l.drop n, R a b := by
  have h' : (l.take n ++ l.drop n).Pairwise R := by rwa [List.take_append_drop]
  exact (List.pairwise_append.mp h').2.2

theorem mkCashFlowData_year (r : CashFlowReport) :
    (mkCashFlowData r).year = yearOf r.fiscalDateEnding := by
  simp only [mkCashFlowData]

theorem mkIncomeData_year (r : IncomeReport) :
    (mkIncomeData r).year = yearOf r.fiscalDateEnding := by
  simp only [mkIncomeData]

theorem mergeSort_pairwise_key {α : Type} (k : α → ℕ) (l : List α) :
    ((l.mergeSort fun a b => decide (k a ≤ k b)).Pairwise fun a b => k a ≤ k b) := by
  have h := @List.sorted_mergeSort _ (fun a b => decide (k a ≤ k b))
    (fun a b c hab hbc => by
      simp only [decide_eq_true_eq] at hab hbc ⊢
      exact le_trans hab hbc)
    (fun a b => by
      simp only [Bool.or_eq_true, decide_eq_true_eq]
      exact le_total (k a) (k b))
    l
  exact h.imp fun hab => by simpa using hab

/--
C3: the yearly series produced by the aggregators are sorted by ascending
year (as the code's `parseInt` comparators order them), never hold more
than 10 entries, repeat no year, and keep the most recent periods: any
dropped aggregate/record has a year at most that of every kept one.  For
the earnings, cash-flow and income-statement aggregators, which rely on
the provider's newest-first ordering (the earnings chart never sorts, the
other two slice before sorting), the input is assumed strictly descending
by year, as §4.1 of the specification requires.
-/
theorem yearly_series_shape :
    ∀ (ms : List MonthlyEntry) (es : List EarningsRecord) (cs : List CashFlowReport)
      (irs : List IncomeReport),
    ((fetchDividendsAgg ms).Pairwise (fun a b => yearVal a.year ≤ yearVal b.year)
      ∧ ((fetchDividendsAgg ms).map YearlyDividend.year).Nodup
      ∧ (fetchDividendsAgg ms).length ≤ 10
      ∧ (∀ g ∈ groupByYear (collectPayments ms), g ∉ fetchDividendsAgg ms →
          ∀ g' ∈ fetchDividendsAgg ms, yearVal g.year ≤ yearVal g'.year))
    ∧ ((es.map fun r => yearVal (yearOf r.fiscalDateEnding)).Pairwise (· > ·) →
        (recentEarnings es).Pairwise
            (fun a b => yearVal (yearOf a.fiscalDateEnding) < yearVal (yearOf b.fiscalDateEnding))
        ∧ ((recentEarnings es).map fun r => yearOf r.fiscalDateEnding).Nodup
        ∧ (recentEarnings es).length ≤ 10
        ∧ (∀ r ∈ recentEarnings es, r ∈ es)
        ∧ (∀ r ∈ es, r ∉ recentEarnings es →
            ∀ r' ∈ recentEarnings es,
              yearVal (yearOf r.fiscalDateEnding) ≤ yearVal (yearOf r'.fiscalDateEnding)))
    ∧ ((cs.map fun r => yearVal (yearOf r.fiscalDateEnding)).Pairwise (· > ·) →
        (processCashFlow cs).Pairwise (fun a b => yearVal a.year ≤ yearVal b.year)
        ∧ ((processCashFlow cs).map CashFlowData.year).Nodup
        ∧ (processCashFlow cs).length ≤ 10
        ∧ (∀ d ∈ processCashFlow cs, ∃ r ∈ cs, d = mkCashFlowData r)
        ∧ (∀ r ∈ cs, mkCashFlowData r ∉ processCashFlow cs →
            ∀ d ∈ processCashFlow cs, yearVal (yearOf r.fiscalDateEnding) ≤ yearVal d.year))
    ∧ ((irs.map fun r => yearVal (yearOf r.fiscalDateEnding)).Pairwise (· > ·) →
        (processIncome irs).Pairwise (fun a b => yearVal a.year ≤ yearVal b.year)
        ∧ ((processIncome irs).map IncomeData.year).Nodup
        ∧ (processIncome irs).length ≤ 10
        ∧ (∀ d ∈ processIncome irs, ∃ r ∈ irs, d = mkIncomeData r)
        ∧ (∀ r ∈ irs, mkIncomeData r ∉ processIncome irs →
            ∀ d ∈ processIncome irs, yearVal (yearOf r.fiscalDateEnding) ≤ yearVal d.year)) := by
  intro ms es cs irs
  refine ⟨?_, ?_, ?_, ?_⟩
  · -- dividends
    set G := groupByYear (collectPayments ms) with hG
    set L := G.mergeSort (fun a b => decide (yearVal b.year ≤ yearVal a.year)) with hL
    have hout : fetchDividendsAgg ms = (L.take 10).reverse := rfl
    have hsorted : L.Pairwise (fun a b => yearVal b.year ≤ yearVal a.year) := by
      have h := @List.sorted_mergeSort _ (fun a b => decide (yearVal b.year ≤ yearVal a.year))
        (fun a b c hab hbc => by
          simp only [decide_eq_true_eq] at hab hbc ⊢
          exact le_trans hbc hab)
        (fun a b => by
          simp only [Bool.or_eq_true, decide_eq_true_eq]
          exact le_total (yearVal b.year) (yearVal a.year))
        G
      exact h.imp fun hab => by simpa using hab
    refine ⟨?_, ?_, ?_, ?_⟩
    · rw [hout, List.pairwise_reverse]
      exact List.Pairwise.sublist (List.take_sublist 10 L) hsorted
    · rw [hout]
      have hperm : List.Perm (L.map YearlyDividend.year) (G.map YearlyDividend.year) :=
        (List.mergeSort_perm G _).map _
      have hnodupL : (L.map YearlyDividend.year).Nodup :=
        hperm.nodup_iff.mpr (by rw [hG, groupByYear_year_map]; exact divYears_nodup _)
      rw [List.map_reverse, List.nodup_reverse, List.map_take]
      exact (List.take_sublist 10 _).nodup hnodupL
    · rw [hout, List.length_reverse]
      exact List.length_take_le 10 L
    · intro g hg hnot g' hg'
      have hgL : g ∈ L := List.mem_mergeSort.mpr hg
      have hnotTake : g ∉ L.take 10 := fun h => hnot (by rw [hout]; exact List.mem_reverse.mpr h)
      have hgdrop : g ∈ L.drop 10 := by
        have : g ∈ L.take 10 ++ L.drop 10 := by rwa [List.take_append_drop]
        rcases List.mem_append.mp this with h | h
        · exact absurd h hnotTake
        · exact h
      have hg'take : g' ∈ L.take 10 := by
        rw [hout] at hg'
        exact List.mem_reverse.mp hg'
      exact pairwise_take_drop hsorted 10 g' hg'take g hgdrop
  · -- earnings
    intro hdesc
    have hdesc' : es.Pairwise (fun a b =>
        yearVal (yearOf a.fiscalDateEnding) > yearVal (yearOf b.fiscalDateEnding)) :=
      List.pairwise_map.mp hdesc
    have htake : (es.take 10).Pairwise (fun a b =>
        yearVal (yearOf a.fiscalDateEnding) > yearVal (yearOf b.fiscalDateEnding)) :=
      List.Pairwise.sublist (List.take_sublist 10 es) hdesc'
    have hrec : (recentEarnings es).Pairwise (fun a b =>
        yearVal (yearOf a.fiscalDateEnding) < yearVal (yearOf b.fiscalDateEnding)) := by
      rw [recentEarnings, List.pairwise_reverse]
      exact htake
    refine ⟨hrec, ?_, ?_, ?_, ?_⟩
    · refine List.pairwise_map.mpr (hrec.imp ?_)
      intro a b hab he
      rw [he] at hab
      exact lt_irrefl _ hab
    · rw [recentEarnings, List.length_reverse]
      exact List.length_take_le 10 es
    · intro r hr
      rw [recentEarnings, List.mem_reverse] at hr
      exact List.mem_of_mem_take hr
    · intro r hr hnot r' hr'
      have hnotTake : r ∉ es.take 10 := fun h =>
        hnot (by rw [recentEarnings]; exact List.mem_reverse.mpr h)
      have hrdrop : r ∈ es.drop 10 := by
        have : r ∈ es.take 10 ++ es.drop 10 := by rwa [List.take_append_drop]
        rcases List.mem_append.mp this with h | h
        · exact absurd h hnotTake
        · exact h
      have hr'take : r' ∈ es.take 10 := by
        rw [recentEarnings, List.mem_reverse] at hr'
        exact hr'
      exact le_of_lt (pairwise_take_drop hdesc' 10 r' hr'take r hrdrop)
  · -- cash flow
    intro hdesc
    have hdesc' : cs.Pairwise (fun a b =>
        yearVal (yearOf a.fiscalDateEnding) > yearVal (yearOf b.fiscalDateEnding)) :=
      List.pairwise_map.mp hdesc
    set L := (cs.take 10).map mkCashFlowData with hLdef
    have hout : processCashFlow cs
        = L.mergeSort (fun a b => decide (yearVal a.year ≤ yearVal b.year)) := rfl
    refine ⟨?_, ?_, ?_, ?_, ?_⟩
    · rw [hout]
      exact mergeSort_pairwise_key (fun d => yearVal d.year) L
    · rw [hout]
      have hperm : List.Perm ((L.mergeSort fun a b => decide (yearVal a.year ≤ yearVal b.year)).map
          CashFlowData.year) (L.map CashFlowData.year) :=
        (List.mergeSort_perm L _).map _
      refine hperm.nodup_iff.mpr ?_
      rw [hLdef, List.map_map]
      have htake : (cs.take 10).Pairwise (fun a b =>
          yearVal (yearOf a.fiscalDateEnding) > yearVal (yearOf b.fiscalDateEnding)) :=
        List.Pairwise.sublist (List.take_sublist 10 cs) hdesc'
      refine List.pairwise_map.mpr (htake.imp ?_)
      intro a b hab he
      rw [Function.comp_apply, Function.comp_apply, mkCashFlowData_year,
        mkCashFlowData_year] at he
      rw [he] at hab
      exact lt_irrefl _ hab
    · rw [hout, List.length_mergeSort, hLdef, List.length_map]
      exact List.length_take_le 10 cs
    · intro d hd
      rw [hout, List.mem_mergeSort, hLdef] at hd
      rcases List.mem_map.mp hd with ⟨r, hrtake, hdr⟩
      exact ⟨r, List.mem_of_mem_take hrtake, hdr.symm⟩
    · intro r hr hnot d hd
      rw [hout, List.mem_mergeSort] at hd
      rcases List.mem_map.mp hd with ⟨r', hr'take, hdr'⟩
      have hnotTake : r ∉ cs.take 10 := fun h =>
        hnot (by rw [hout, List.mem_mergeSort, hLdef]; exact List.mem_map_of_mem _ h)
      have hrdrop : r ∈ cs.drop 10 := by
        have : r ∈ cs.take 10 ++ cs.drop 10 := by rwa [List.take_append_drop]
        rcases List.mem_append.mp this with h | h
        · exact absurd h hnotTake
        · exact h
      have hlt := pairwise_take_drop hdesc' 10 r' hr'take r hrdrop
      have hy : d.year = yearOf r'.fiscalDateEnding := by
        rw [← hdr', mkCashFlowData_year]
      rw [hy]
      exact le_of_lt hlt
  · -- income statement
    intro hdesc
    have hdesc' : irs.Pairwise (fun a b =>
        yearVal (yearOf a.fiscalDateEnding) > yearVal (yearOf b.fiscalDateEnding)) :=
      List.pairwise_map.mp hdesc
    set L := (irs.take 10).map mkIncomeData with hLdef
    have hout : processIncome irs
        = L.mergeSort (fun a b => decide (yearVal a.year ≤ yearVal b.year)) := rfl
    refine ⟨?_, ?_, ?_, ?_, ?_⟩
    · rw [hout]
      exact mergeSort_pairwise_key (fun d => yearVal d.year) L
    · rw [hout]
      have hperm : List.Perm ((L.mergeSort fun a b => decide (yearVal a.year ≤ yearVal b.year)).map
          IncomeData.year) (L.map IncomeData.year) :=
        (List.mergeSort_perm L _).map _
      refine hperm.nodup_iff.mpr ?_
      rw [hLdef, List.map_map]
      have htake : (irs.take 10).Pairwise (fun a b =>
          yearVal (yearOf a.fiscalDateEnding) > yearVal (yearOf b.fiscalDateEnding)) :=
        List.Pairwise.sublist (List.take_sublist 10 irs) hdesc'
      refine List.pairwise_map.mpr (htake.imp ?_)
      intro a b hab he
      rw [Function.comp_apply, Function.comp_apply, mkIncomeData_year,
        mkIncomeData_year] at he
      rw [he] at hab
      exact lt_irrefl _ hab
    · rw [hout, List.length_mergeSort, hLdef, List.length_map]
      exact List.length_take_le 10 irs
    · intro d hd
      rw [hout, List.mem_mergeSort, hLdef] at hd
      rcases List.mem_map.mp hd with ⟨r, hrtake, hdr⟩
      exact ⟨r, List.mem_of_mem_take hrtake, hdr.symm⟩
    · intro r hr hnot d hd
      rw [hout, List.mem_mergeSort] at hd
      rcases List.mem_map.mp hd with ⟨r', hr'take, hdr'⟩
      have hnotTake : r ∉ irs.take 10 := fun h =>
        hnot (by rw [hout, List.mem_mergeSort, hLdef]; exact List.mem_map_of_mem _ h)
      have hrdrop : r ∈ irs.drop 10 := by
        have : r ∈ irs.take 10 ++ irs.drop 10 := by rwa [List.take_append_drop]
        rcases List.mem_append.mp this with h | h
        · exact absurd h hnotTake
        · exact h
      have hlt := pairwise_take_drop hdesc' 10 r' hr'take r hrdrop
      have hy : d.year = yearOf r'.fiscalDateEnding := by
        rw [← hdr', mkIncomeData_year]
      rw [hy]
      exact le_of_lt hlt

/-- Witness for C3: concrete one- and two-element series, with the
newest-first hypotheses for the earnings and cash-flow parts discharged
by computation. -/
theorem yearly_series_shape_witness :
    (fetchDividendsAgg [⟨"2020-01-31", some 1⟩]).length ≤ 10
    ∧ (recentEarnings [⟨"2023-12-31", some 1⟩, ⟨"2022-12-31", some 2⟩]).length ≤ 10
    ∧ (processCashFlow [⟨"2023-12-31", some 50, some (-10), some 20, some 5⟩]).length ≤ 10
    ∧ (processIncome [⟨"2023-12-31", some 100, some 20, some 30, some 40, some 50⟩,
        ⟨"2022-12-31", some 90, some 18, some 27, some 36, some 45⟩]).length ≤ 10 := by
  refine ⟨(yearly_series_shape [⟨"2020-01-31", some 1⟩] [] [] []).1.2.2.1, ?_, ?_, ?_⟩
  · exact ((yearly_series_shape [] [⟨"2023-12-31", some 1⟩, ⟨"2022-12-31", some 2⟩] [] []).2.1
      (by decide)).2.2.1
  · exact ((yearly_series_shape [] []
      [⟨"2023-12-31", some 50, some (-10), some 20, some 5⟩] []).2.2.1 (by decide)).2.2.1
  · exact ((yearly_series_shape [] [] []
      [⟨"2023-12-31", some 100, some 20, some 30, some 40, some 50⟩,
        ⟨"2022-12-31", some 90, some 18, some 27, some 36, some 45⟩]).2.2.2 (by decide)).2.2.1

/-! ## Helper lemmas: aggregated dividend totals are positive -/

theorem fetchDividendsAgg_total_pos (ms : List MonthlyEntry) (g : YearlyDividend)
    (hg : g ∈ fetchDividendsAgg ms) : 0 < g.totalDividend := by
  obtain ⟨hyear, hq, ht⟩ := mem_groupByYear _ _ (mem_fetchDividendsAgg _ _ hg)
  obtain ⟨p0, hp0, hp0y⟩ := mem_divYears _ _ hyear
  have hp0f : p0 ∈ (collectPayments ms).filter fun p => yearOf p.date == g.year :=
    List.mem_filter.mpr ⟨hp0, beq_iff_eq.mpr hp0y⟩
  rw [ht]
  refine List.sum_pos _ (fun x hx => ?_) (fun hnil => ?_)
  · rcases List.mem_map.mp hx with ⟨p, hp, hpx⟩
    exact hpx ▸ (collectPayments_mem _ _ (List.mem_of_mem_filter hp)).1
  · rw [List.map_eq_nil_iff] at hnil
    rw [hnil] at hp0f
    exact absurd hp0f (List.not_mem_nil _)

/--
C4 counterexample: the claim says that whenever the previous period's value
is 0 — the earnings tooltip case included — the year-over-year growth is
rendered as unavailable, never numeric.  But the earnings tooltip at index 1
over EPS values `[0, 5]` renders the numeric growth figure `0%` (the code
computes `previousEPS !== 0 ? ... : 0` and always prints the number when a
previous period exists).
-/
theorem growth_zero_prev_counterexample :
    earningsGrowthInfo [⟨"2019-12-31", some 0⟩, ⟨"2020-12-31", some 5⟩] 1 = some 0
    ∧ earningsGrowthInfo [⟨"2019-12-31", some 0⟩, ⟨"2020-12-31", some 5⟩] 1 ≠ none := by
  have h : earningsGrowthInfo [⟨"2019-12-31", some 0⟩, ⟨"2020-12-31", some 5⟩] 1 = some 0 := by
    norm_num [earningsGrowthInfo, epsOf]
  exact ⟨h, by rw [h]; exact Option.some_ne_none 0⟩

/--
C4 amended: growth is omitted exactly for the first period (no previous
period).  When a previous period exists, the earnings tooltip always shows
a numeric figure: `(current − previous) / |previous| × 100` when the
previous EPS is nonzero, and the numeric value `0` (not "unavailable")
when the previous EPS is zero.  The dividends tooltip shows
`(current − previous) / previous × 100` for every index past the first,
which on the aggregator's output (all totals strictly positive, so the
denominator is never zero and equals its absolute value) coincides with
`(current − previous) / |previous| × 100`.
-/
theorem growth_guard_amended :
    ∀ (es : List EarningsRecord) (ms : List MonthlyEntry) (ds : List YearlyDividend) (i : ℕ),
    earningsGrowthInfo es 0 = none
    ∧ (0 < i → epsOf (es.getD (i - 1) default) ≠ 0 →
        earningsGrowthInfo es i
          = some ((epsOf (es.getD i default) - epsOf (es.getD (i - 1) default))
              / |epsOf (es.getD (i - 1) default)| * 100))
    ∧ (0 < i → epsOf (es.getD (i - 1) default) = 0 → earningsGrowthInfo es i = some 0)
    ∧ dividendsGrowthInfo ds 0 = none
    ∧ (0 < i → i < (fetchDividendsAgg ms).length →
        dividendsGrowthInfo (fetchDividendsAgg ms) i
          = some ((((fetchDividendsAgg ms).getD i default).totalDividend
              - ((fetchDividendsAgg ms).getD (i - 1) default).totalDividend)
              / |((fetchDividendsAgg ms).getD (i - 1) default).totalDividend| * 100)) := by
  intro es ms ds i
  refine ⟨by simp [earningsGrowthInfo], ?_, ?_, by simp [dividendsGrowthInfo], ?_⟩
  · intro hi hne
    simp only [earningsGrowthInfo]
    rw [if_pos hi, if_pos hne]
  · intro hi hzero
    simp only [earningsGrowthInfo]
    rw [if_pos hi, if_neg (not_not_intro hzero)]
  · intro hi hilen
    have hprevlt : i - 1 < (fetchDividendsAgg ms).length := lt_of_le_of_lt (Nat.sub_le i 1) hilen
    have hmem : (fetchDividendsAgg ms).getD (i - 1) default ∈ fetchDividendsAgg ms := by
      rw [List.getD_eq_getElem _ _ hprevlt]
      exact List.getElem_mem _
    have hpos := fetchDividendsAgg_total_pos ms _ hmem
    simp only [dividendsGrowthInfo]
    rw [if_pos hi, abs_of_pos hpos]

/-- Witness for C4 at concrete inputs: the earnings tooltip over EPS `[2, 3]`
shows the formula value at index 1, over `[0, 5]` it shows `0`, and on a
two-year dividend aggregation the growth at index 1 equals the
absolute-value formula. -/
theorem growth_guard_amended_witness :
    earningsGrowthInfo [⟨"2019-12-31", some 2⟩, ⟨"2020-12-31", some 3⟩] 1
      = some ((epsOf ([⟨"2019-12-31", some 2⟩, ⟨"2020-12-31", some 3⟩].getD 1 default)
          - epsOf ([⟨"2019-12-31", some 2⟩, ⟨"2020-12-31", some 3⟩].getD 0 default))
          / |epsOf ([⟨"2019-12-31", some 2⟩, ⟨"2020-12-31", some 3⟩].getD 0 default)| * 100)
    ∧ earningsGrowthInfo [⟨"2019-12-31", some 0⟩, ⟨"2020-12-31", some 5⟩] 1 = some 0
    ∧ dividendsGrowthInfo
        (fetchDividendsAgg [⟨"2020-01-31", some 1⟩, ⟨"2019-03-31", some 2⟩]) 1
      = some ((((fetchDividendsAgg [⟨"2020-01-31", some 1⟩, ⟨"2019-03-31", some 2⟩]).getD 1
              default).totalDividend
          - (((fetchDividendsAgg [⟨"2020-01-31", some 1⟩, ⟨"2019-03-31", some 2⟩]).getD 0
              default)).totalDividend)
          / |(((fetchDividendsAgg [⟨"2020-01-31", some 1⟩, ⟨"2019-03-31", some 2⟩]).getD 0
              default)).totalDividend| * 100) := by
  have hlen : 1 < (fetchDividendsAgg [⟨"2020-01-31", some 1⟩, ⟨"2019-03-31", some 2⟩]).length := by
    rw [fetchDividendsAgg, List.length_reverse, List.length_take, List.length_mergeSort]
    have h2 : (groupByYear
        (collectPayments [⟨"2020-01-31", some 1⟩, ⟨"2019-03-31", some 2⟩])).length = 2 := by
      decide
    rw [h2]
    decide
  refine ⟨(growth_guard_amended [⟨"2019-12-31", some 2⟩, ⟨"2020-12-31", some 3⟩] [] [] 1).2.1
      (by decide) (by norm_num [epsOf]),
    (growth_guard_amended [⟨"2019-12-31", some 0⟩, ⟨"2020-12-31", some 5⟩] [] [] 1).2.2.1
      (by decide) (by norm_num [epsOf]),
    (growth_guard_amended [] [⟨"2020-01-31", some 1⟩, ⟨"2019-03-31", some 2⟩] [] 1).2.2.2.2
      (by decide) hlen⟩

/--
C5 counterexample: the claim's color policy fails on both single-series bar
charts.  In the earnings chart two equal consecutive EPS values color the
second bar with the decline color `#f59e0b`, not a distinct fourth
"unchanged" color, and a negative first value is colored `#ef4444`, not the
neutral baseline.  In the dividends chart a negative second value after a
positive one is colored with the decline color `#f59e0b` — there is no
overriding "negative" color in that chart at all.
-/
theorem bar_color_policy_counterexample :
    earningsColors [⟨"2019-12-31", some 1⟩, ⟨"2020-12-31", some 1⟩] = ["#3b82f6", "#f59e0b"]
    ∧ dividendColors [1, -2] = ["#3b82f6", "#f59e0b"]
    ∧ earningsColors [⟨"2019-12-31", some (-1)⟩] = ["#ef4444"] := by
  refine ⟨by decide, by decide, by decide⟩

/--
C5 amended: the actual color policies.  Earnings chart: a negative EPS is
colored `#ef4444` overriding everything; otherwise the first bar is the
baseline `#3b82f6`; a later bar is `#22c55e` when strictly above its
predecessor and `#f59e0b` otherwise (strictly below **or equal** — there is
no fourth "unchanged" color).  Dividends chart: the first bar is always
`#3b82f6` (no negative override exists); a later bar is `#22c55e` when
strictly above its predecessor, `#f59e0b` when strictly below, and
`#ef4444` when exactly equal.
-/
theorem bar_color_policy_amended :
    ∀ (es : List EarningsRecord) (amts : List ℚ) (i : ℕ),
    (earningsColors es).length = es.length
    ∧ (dividendColors amts).length = amts.length
    ∧ (i < es.length → (earningsColors es).getD i "" = earningsColorAt es i)
    ∧ (epsOf (es.getD i default) < 0 → earningsColorAt es i = "#ef4444")
    ∧ (¬ epsOf (es.getD i default) < 0 → i = 0 → earningsColorAt es i = "#3b82f6")
    ∧ (¬ epsOf (es.getD i default) < 0 → 0 < i →
        epsOf (es.getD (i - 1) default) < epsOf (es.getD i default) →
        earningsColorAt es i = "#22c55e")
    ∧ (¬ epsOf (es.getD i default) < 0 → 0 < i →
        ¬ epsOf (es.getD (i - 1) default) < epsOf (es.getD i default) →
        earningsColorAt es i = "#f59e0b")
    ∧ (i < amts.length → (dividendColors amts).getD i "" = dividendColorAt amts i)
    ∧ (i = 0 → dividendColorAt amts i = "#3b82f6")
    ∧ (0 < i → amts.getD (i - 1) 0 < amts.getD i 0 → dividendColorAt amts i = "#22c55e")
    ∧ (0 < i → amts.getD i 0 < amts.getD (i - 1) 0 → dividendColorAt amts i = "#f59e0b")
    ∧ (0 < i → amts.getD i 0 = amts.getD (i - 1) 0 → dividendColorAt amts i = "#ef4444") := by
  intro es amts i
  refine ⟨by simp [earningsColors], by simp [dividendColors], ?_, ?_, ?_, ?_, ?_, ?_, ?_, ?_,
    ?_, ?_⟩
  · intro hi
    rw [earningsColors, List.getD_eq_getElem _ _ (by simpa using hi),
      List.getElem_map, List.getElem_range]
  · intro hneg
    simp only [earningsColorAt]
    rw [if_pos hneg]
  · intro hnn hi0
    subst hi0
    simp only [earningsColorAt]
    rw [if_neg hnn, if_neg (lt_irrefl 0)]
  · intro hnn hi hlt
    simp only [earningsColorAt]
    rw [if_neg hnn, if_pos hi, if_pos hlt]
  · intro hnn hi hnlt
    simp only [earningsColorAt]
    rw [if_neg hnn, if_pos hi, if_neg hnlt]
  · intro hi
    rw [dividendColors, List.getD_eq_getElem _ _ (by simpa using hi),
      List.getElem_map, List.getElem_range]
  · intro hi0
    simp only [dividendColorAt]
    rw [if_pos hi0]
  · intro hi hlt
    simp only [dividendColorAt]
    rw [if_neg (Nat.pos_iff_ne_zero.mp hi), if_pos hlt]
  · intro hi hlt
    simp only [dividendColorAt]
    rw [if_neg (Nat.pos_iff_ne_zero.mp hi), if_neg (not_lt.mpr hlt.le), if_pos hlt]
  · intro hi heq
    simp only [dividendColorAt]
    rw [if_neg (Nat.pos_iff_ne_zero.mp hi), if_neg (heq ▸ lt_irrefl _),
      if_neg (heq ▸ lt_irrefl _)]

/-- Witness for C5 at concrete inputs: rising EPS `[1, 2]` colors the second
bar with the growth color, and a flat dividend pair `[3, 3]` colors the
second bar `#ef4444`. -/
theorem bar_color_policy_amended_witness :
    earningsColorAt [⟨"2019-12-31", some 1⟩, ⟨"2020-12-31", some 2⟩] 1 = "#22c55e"
    ∧ dividendColorAt [3, 3] 1 = "#ef4444" := by
  refine ⟨(bar_color_policy_amended [⟨"2019-12-31", some 1⟩, ⟨"2020-12-31", some 2⟩] [] 1).2.2.2.2.2.1
      (by norm_num [epsOf]) (by decide) (by norm_num [epsOf]),
    (bar_color_policy_amended [] [3, 3] 1).2.2.2.2.2.2.2.2.2.2.2
      (by decide) (by norm_num)⟩

/--
C6 counterexample: the claim requires a static fallback suggestion table
when no API key is configured (or on a rate-limit/error response), with
query "APP" yielding AAPL/Apple Inc.  The code has no such table:
`searchTickers` with no configured key simply clears the suggestions, so
"APP" yields the empty list, and a rate-limited response likewise yields
the empty list.
-/
theorem search_fallback_counterexample :
    searchTickers none "APP" ⟨none, none, []⟩ = ([], false)
    ∧ searchTickers (some "key") "APP" ⟨none, some "rate limit note", []⟩ = ([], false) := by
  exact ⟨rfl, rfl⟩

/--
C6 amended: there is no fallback suggestion table.  For every query and
response, when no (truthy) API key is configured, or the query is shorter
than 2 characters, or the response carries a truthy `Error Message` or a
truthy rate-limit `Note`, `searchTickers` stores no suggestions and closes
the dropdown (`([], false)`).
-/
theorem search_fallback_amended :
    ∀ (key : Option String) (q : String) (resp : SearchResponse),
    (jsTruthy key = false → searchTickers key q resp = ([], false))
    ∧ (q.length < 2 → searchTickers key q resp = ([], false))
    ∧ (jsTruthy resp.errorMessage = true → searchTickers key q resp = ([], false))
    ∧ (jsTruthy resp.note = true → searchTickers key q resp = ([], false)) := by
  intro key q resp
  refine ⟨?_, ?_, ?_, ?_⟩
  · intro h
    unfold searchTickers
    by_cases hq : q.length < 2
    · simp [hq]
    · simp [hq, h]
  · intro h
    unfold searchTickers
    simp [h]
  · intro h
    unfold searchTickers
    by_cases hq : q.length < 2
    · simp [hq]
    · by_cases hk : jsTruthy key
      · simp [hq, hk, h]
      · simp [hq, hk]
  · intro h
    unfold searchTickers
    by_cases hq : q.length < 2
    · simp [hq]
    · by_cases hk : jsTruthy key
      · by_cases he : jsTruthy resp.errorMessage
        · simp [hq, hk, he]
        · simp [hq, hk, he, h]
      · simp [hq, hk]

/-- Witness for C6: with no key and the query "APP" the stored state is
`([], false)`. -/
theorem search_fallback_amended_witness :
    searchTickers none "APP"
        ⟨none, none, [⟨"AAPL", "Apple Inc", "Equity", "United States", "USD", 1⟩]⟩
      = ([], false) :=
  (search_fallback_amended none "APP"
    ⟨none, none, [⟨"AAPL", "Apple Inc", "Equity", "United States", "USD", 1⟩]⟩).1 rfl

/--
C9: on a successful live symbol-search response (truthy key, query length
at least 2, no error message, no rate-limit note), the stored suggestion
list is exactly the provider's matches filtered to type "Equity" and region
"United States", sorted by descending numeric match score and truncated to
the first 8: every shown suggestion passes the filter, the list is sorted
descending by score, its length is the minimum of 8 and the number of
survivors, every shown suggestion comes from the response, and any
qualifying match that is not shown scores no higher than every shown one.
-/
theorem live_search_ranking :
    ∀ (key : Option String) (q : String) (resp : SearchResponse),
    jsTruthy key = true → 2 ≤ q.length →
    jsTruthy resp.errorMessage = false → jsTruthy resp.note = false →
    (searchTickers key q resp).1 = filterLiveResults resp.bestMatches
    ∧ (∀ r ∈ (searchTickers key q resp).1, r.typ = "Equity" ∧ r.region = "United States")
    ∧ ((searchTickers key q resp).1.Pairwise fun a b => b.matchScore ≤ a.matchScore)
    ∧ (searchTickers key q resp).1.length
        = min 8 (resp.bestMatches.filter fun r =>
            r.typ == "Equity" && r.region == "United States").length
    ∧ (∀ r ∈ (searchTickers key q resp).1, r ∈ resp.bestMatches)
    ∧ (∀ r ∈ resp.bestMatches, (r.typ == "Equity" && r.region == "United States") = true →
        r ∉ (searchTickers key q resp).1 →
        ∀ r' ∈ (searchTickers key q resp).1, r.matchScore ≤ r'.matchScore)
    ∧ (searchTickers key q resp).2
        = decide (0 < (filterLiveResults resp.bestMatches).length) := by
  intro key q resp hk hq he hn
  have hres : searchTickers key q resp
      = (filterLiveResults resp.bestMatches,
          decide (0 < (filterLiveResults resp.bestMatches).length)) := by
    unfold searchTickers
    rw [if_neg (Nat.not_lt.mpr hq)]
    rw [hk, he, hn]
    simp
  set F := resp.bestMatches.filter
      (fun r => r.typ == "Equity" && r.region == "United States") with hF
  set S := F.mergeSort (fun a b => decide (b.matchScore ≤ a.matchScore)) with hS
  have houtdef : filterLiveResults resp.bestMatches = S.take 8 := rfl
  have hsorted : S.Pairwise (fun a b => b.matchScore ≤ a.matchScore) := by
    have h := @List.sorted_mergeSort _ (fun a b => decide (b.matchScore ≤ a.matchScore))
      (fun a b c hab hbc => by
        simp only [decide_eq_true_eq] at hab hbc ⊢
        exact le_trans hbc hab)
      (fun a b => by
        simp only [Bool.or_eq_true, decide_eq_true_eq]
        exact le_total (b.matchScore) (a.matchScore))
      F
    exact h.imp fun hab => by simpa using hab
  have hmemS : ∀ {r : SearchResult}, r ∈ S ↔ r ∈ F := fun {r} => List.mem_mergeSort
  refine ⟨by rw [hres], ?_, ?_, ?_, ?_, ?_, by rw [hres]⟩
  · intro r hr
    rw [hres] at hr
    have hrF : r ∈ F := hmemS.mp (List.mem_of_mem_take (houtdef ▸ hr))
    have := (List.mem_filter.mp hrF).2
    rw [Bool.and_eq_true, beq_iff_eq, beq_iff_eq] at this
    exact this
  · rw [hres]
    show (S.take 8).Pairwise fun a b => b.matchScore ≤ a.matchScore
    exact List.Pairwise.sublist (List.take_sublist 8 S) hsorted
  · rw [hres]
    show (S.take 8).length = min 8 F.length
    rw [List.length_take, List.length_mergeSort]
  · intro r hr
    rw [hres] at hr
    exact List.mem_of_mem_filter (hmemS.mp (List.mem_of_mem_take (houtdef ▸ hr)))
  · intro r hr hflt hnot r' hr'
    have hrF : r ∈ F := List.mem_filter.mpr ⟨hr, hflt⟩
    have hrS : r ∈ S := hmemS.mpr hrF
    have hnotTake : r ∉ S.take 8 := fun h => hnot (by rw [hres]; exact houtdef ▸ h)
    have hrdrop : r ∈ S.drop 8 := by
      have : r ∈ S.take 8 ++ S.drop 8 := by rwa [List.take_append_drop]
      rcases List.mem_append.mp this with h | h
      · exact absurd h hnotTake
      · exact h
    have hr'take : r' ∈ S.take 8 := by
      rw [hres] at hr'
      exact houtdef ▸ hr'
    exact pairwise_take_drop hsorted 8 r' hr'take r hrdrop

/-- Witness for C9: a concrete response with one domestic equity match and
one foreign non-equity match keeps exactly the equity match. -/
theorem live_search_ranking_witness :
    (searchTickers (some "key") "APP"
        ⟨none, none, [⟨"AAPL", "Apple Inc", "Equity", "United States", "USD", 1⟩,
          ⟨"APX", "Appex plc", "ETF", "United Kingdom", "GBP", 1/2⟩]⟩).1
      = filterLiveResults [⟨"AAPL", "Apple Inc", "Equity", "United States", "USD", 1⟩,
          ⟨"APX", "Appex plc", "ETF", "United Kingdom", "GBP", 1/2⟩] :=
  (live_search_ranking (some "key") "APP"
    ⟨none, none, [⟨"AAPL", "Apple Inc", "Equity", "United States", "USD", 1⟩,
      ⟨"APX", "Appex plc", "ETF", "United Kingdom", "GBP", 1/2⟩]⟩
    rfl (by decide) rfl rfl).1

/--
C8: the cash-flow aggregator computes
`freeCashFlow = operatingCashflow − |capitalExpenditures|` (each field
parsed with default 0) and reports it scaled to $ billions; consequently on
every processed record the scaled identity
`freeCashFlow = operatingCashflow − capitalExpenditures` holds, and the
concrete report with `operatingCashflow = 50e9` and
`capitalExpenditures = −10e9` yields `freeCashFlow = 40` ($B).
-/
theorem free_cash_flow_formula :
    ∀ (r : CashFlowReport) (l : List CashFlowReport),
    (mkCashFlowData r).freeCashFlow
        = (r.operatingCashflow.getD 0 - |r.capitalExpenditures.getD 0|) / 1000000000
    ∧ (∀ d ∈ processCashFlow l, d.freeCashFlow = d.operatingCashflow - d.capitalExpenditures)
    ∧ processCashFlow [⟨"2023-12-31", some 50000000000, some (-10000000000),
        some 20000000000, some 5000000000⟩]
        = [⟨"2023", 50, 10, 40, 20, 5⟩] := by
  intro r l
  refine ⟨by simp only [mkCashFlowData], ?_, ?_⟩
  · intro d hd
    rw [processCashFlow, List.mem_mergeSort] at hd
    rcases List.mem_map.mp hd with ⟨r', hr', hdr'⟩
    subst hdr'
    simp only [mkCashFlowData]
    rw [sub_div]
  · rw [processCashFlow]
    rw [show List.map mkCashFlowData (List.take 10 [⟨"2023-12-31", some 50000000000,
        some (-10000000000), some 20000000000, some 5000000000⟩])
      = [mkCashFlowData ⟨"2023-12-31", some 50000000000, some (-10000000000),
          some 20000000000, some 5000000000⟩] from rfl]
    rw [List.mergeSort_singleton]
    have : mkCashFlowData ⟨"2023-12-31", some 50000000000, some (-10000000000),
        some 20000000000, some 5000000000⟩ = ⟨"2023", 50, 10, 40, 20, 5⟩ := by
      simp only [mkCashFlowData]
      norm_num [yearOf, show ("2023-12-31".take 4) = "2023" from rfl]
    rw [this]

/-- Witness for C8: the scaled free-cash-flow identity holds on the record
produced from the concrete 50e9 / −10e9 report. -/
theorem free_cash_flow_formula_witness :
    (⟨"2023", 50, 10, 40, 20, 5⟩ : CashFlowData).freeCashFlow
      = (⟨"2023", 50, 10, 40, 20, 5⟩ : CashFlowData).operatingCashflow
        - (⟨"2023", 50, 10, 40, 20, 5⟩ : CashFlowData).capitalExpenditures := by
  have hmem : (⟨"2023", 50, 10, 40, 20, 5⟩ : CashFlowData) ∈ processCashFlow
      [⟨"2023-12-31", some 50000000000, some (-10000000000),
        some 20000000000, some 5000000000⟩] := by
    rw [(free_cash_flow_formula ⟨"", none, none, none, none⟩
      [⟨"2023-12-31", some 50000000000, some (-10000000000),
        some 20000000000, some 5000000000⟩]).2.2]
    exact List.mem_singleton.mpr rfl
  exact (free_cash_flow_formula ⟨"", none, none, none, none⟩
    [⟨"2023-12-31", some 50000000000, some (-10000000000),
      some 20000000000, some 5000000000⟩]).2.1 _ hmem

/--
C10: a chart component's effect initiates a market-data fetch exactly when
the `shouldFetch` flag is set, the ticker is non-empty with length at least
3 and the ticker contains no space; whenever the condition fails the
component state (data, loading, error) is returned unchanged and no request
is made, so a committed ticker shorter than 3 characters or containing a
space never populates any chart.
-/
theorem chart_fetch_guard :
    ∀ (α : Type) (sf : Bool) (t : String) (doFetch : ChartState α → ChartState α)
      (s : ChartState α),
    ((chartEffect sf t doFetch s).2 = shouldTrigger sf t)
    ∧ (shouldTrigger sf t = false → chartEffect sf t doFetch s = (s, false))
    ∧ (shouldTrigger sf t = true ↔
        (sf = true ∧ t ≠ "" ∧ 3 ≤ t.length ∧ strContains t " " = false))
    ∧ ((sf = false ∨ t.length < 3 ∨ strContains t " " = true) →
        chartEffect sf t doFetch s = (s, false)) := by
  intro α sf t doFetch s
  have hiff : shouldTrigger sf t = true ↔
      (sf = true ∧ t ≠ "" ∧ 3 ≤ t.length ∧ strContains t " " = false) := by
    unfold shouldTrigger
    simp only [Bool.and_eq_true, Bool.not_eq_true', decide_eq_true_eq]
    constructor
    · rintro ⟨⟨⟨hsf, hne⟩, hlen⟩, hsp⟩
      refine ⟨hsf, ?_, hlen, hsp⟩
      intro h
      rw [(String.isEmpty_iff t).mpr h] at hne
      exact Bool.noConfusion hne
    · rintro ⟨hsf, hne, hlen, hsp⟩
      refine ⟨⟨⟨hsf, ?_⟩, hlen⟩, hsp⟩
      rcases hb : t.isEmpty with _ | _
      · rfl
      · exact absurd ((String.isEmpty_iff t).mp hb) hne
  refine ⟨?_, ?_, hiff, ?_⟩
  · unfold chartEffect
    by_cases h : shouldTrigger sf t = true
    · rw [if_pos h, h]
    · rw [Bool.not_eq_true] at h
      rw [h]
      simp
  · intro h
    unfold chartEffect
    rw [h]
    simp
  · intro h
    unfold chartEffect
    have hfalse : shouldTrigger sf t = false := by
      rcases h with h | h | h
      · unfold shouldTrigger
        rw [h]
        simp
      · have : ¬ 3 ≤ t.length := Nat.not_le.mpr h
        unfold shouldTrigger
        simp [this]
      · unfold shouldTrigger
        rw [h]
        simp
    rw [hfalse]
    simp

/-- Witness for C10: a cleared flag, a 2-character ticker and a ticker with
a space all leave the state untouched with no request. -/
theorem chart_fetch_guard_witness :
    chartEffect false "AAPL" id (⟨[], false, ""⟩ : ChartState Unit) = (⟨[], false, ""⟩, false)
    ∧ chartEffect true "AB" id (⟨[], false, ""⟩ : ChartState Unit) = (⟨[], false, ""⟩, false)
    ∧ chartEffect true "AA PL" id (⟨[], false, ""⟩ : ChartState Unit)
        = (⟨[], false, ""⟩, false) := by
  refine ⟨(chart_fetch_guard Unit false "AAPL" id _).2.2.2 (Or.inl rfl),
    (chart_fetch_guard Unit true "AB" id _).2.2.2 (Or.inr (Or.inl (by decide))),
    (chart_fetch_guard Unit true "AA PL" id _).2.2.2 (Or.inr (Or.inr (by decide)))⟩

end MarketMaker
